import Mathlib

/-!
Verification of the ransomware URL-scraping pipeline.

Shallow embedding of the Python sources:
  src/scraper.py  : date parsing, date filtering, URL date extraction,
                    fetch retry policy, per-source orchestration loop
  src/storage.py  : per-source seen-URL stores (JSON dicts)
  src/main.py     : new-URL identification and store update

Machine integers do not occur; Python ints are Nat.  `datetime` values are
modelled by `PyDateTime` below; all values the program constructs have their
fields in `datetime`'s legal ranges, and comparison is the lexicographic
order on (year, month, day, hour, minute, second), realised by a strictly
monotone encoding into Nat.
-/

/-- Model of a zone-naive Python `datetime` value. -/
structure PyDateTime where
  year : Nat
  month : Nat
  day : Nat
  hour : Nat
  minute : Nat
  second : Nat
deriving Repr, DecidableEq

/-- Strictly monotone encoding of the (bounded) fields; the Python `datetime`
order coincides with Nat order on this key for values with fields in range
(month ≤ 12 < 13, day ≤ 31 < 32, hour < 24, minute < 60, second < 60). -/
def PyDateTime.key (d : PyDateTime) : Nat :=
  ((((d.year * 13 + d.month) * 32 + d.day) * 24 + d.hour) * 60 + d.minute) * 60 + d.second

/-- Python `a <= b` on datetimes. -/
def PyDateTime.le (a b : PyDateTime) : Bool :=
  a.key ≤ b.key

/-- Gregorian leap year, as `calendar.isleap` / `datetime` use it. -/
def isLeap (y : Nat) : Bool :=
  (y % 4 == 0 && y % 100 != 0) || (y % 400 == 0)

/-- Days in a month, as `datetime` validates them. -/
def daysInMonth (y m : Nat) : Nat :=
  if m == 2 then (if isLeap y then 29 else 28)
  else if m == 4 || m == 6 || m == 9 || m == 11 then 30
  else 31

/-- The range checks `datetime(year, month, day)` performs (`ValueError`
outside them).  Year is bounded by MINYEAR = 1 and MAXYEAR = 9999. -/
def validYMD (y m d : Nat) : Bool :=
  1 ≤ y && y ≤ 9999 && 1 ≤ m && m ≤ 12 && 1 ≤ d && d ≤ daysInMonth y m

/-- The range checks on the time fields of `datetime`. -/
def validHMS (h mi s : Nat) : Bool :=
  h ≤ 23 && mi ≤ 59 && s ≤ 59

/-- Numeric value of an ASCII digit. -/
def dig (c : Char) : Nat :=
  c.toNat - 48

/-- `strptime` fragment: exactly four digits (the `%Y` directive). -/
def take4Digits : List Char → Option (Nat × List Char)
  | a :: b :: c :: d :: rest =>
    if a.isDigit && b.isDigit && c.isDigit && d.isDigit then
      some (((dig a * 10 + dig b) * 10 + dig c) * 10 + dig d, rest)
    else none
  | _ => none

/-- `strptime` fragment: one or two digits, greedily (the `%m`, `%d`, `%H`,
`%M`, `%S` directives; their regexes never take a second digit that a
one-digit reading plus the following literal could consume, because the
following literal is never a digit, so the greedy reading is faithful;
out-of-range values are rejected by the later validity check, as the
combination of directive regex and `datetime` construction does). -/
def take2Digits : List Char → Option (Nat × List Char)
  | a :: b :: rest =>
    if a.isDigit then
      if b.isDigit then some (dig a * 10 + dig b, rest)
      else some (dig a, b :: rest)
    else none
  | [a] => if a.isDigit then some (dig a, []) else none
  | [] => none

/-- `strptime` fragment: a literal character. -/
def litChar (c : Char) : List Char → Option (List Char)
  | x :: rest => if x = c then some rest else none
  | [] => none

/-- `datetime.strptime(s, "%Y-%m-%d")`, the core scan. -/
def strptimeYMDCore (cs : List Char) : Option (Nat × Nat × Nat × List Char) := do
  let (y, r1) ← take4Digits cs
  let r2 ← litChar '-' r1
  let (m, r3) ← take2Digits r2
  let r4 ← litChar '-' r3
  let (d, r5) ← take2Digits r4
  pure (y, m, d, r5)

/-- `datetime.strptime(s, "%Y-%m-%d")`: the whole string must be consumed and
the fields must pass `datetime`'s range checks; otherwise `ValueError`,
modelled as `none`. -/
def strptimeYMD (cs : List Char) : Option PyDateTime :=
  match strptimeYMDCore cs with
  | some (y, m, d, rest) =>
    if rest = [] && validYMD y m d then some ⟨y, m, d, 0, 0, 0⟩ else none
  | none => none

/-- `datetime.strptime(s, "%Y-%m-%dT%H:%M:%S")`, the core scan. -/
def strptimeFullCore (cs : List Char) :
    Option (Nat × Nat × Nat × Nat × Nat × Nat × List Char) := do
  let (y, r1) ← take4Digits cs
  let r2 ← litChar '-' r1
  let (m, r3) ← take2Digits r2
  let r4 ← litChar '-' r3
  let (d, r5) ← take2Digits r4
  let r6 ← litChar 'T' r5
  let (h, r7) ← take2Digits r6
  let r8 ← litChar ':' r7
  let (mi, r9) ← take2Digits r8
  let r10 ← litChar ':' r9
  let (s, r11) ← take2Digits r10
  pure (y, m, d, h, mi, s, r11)

/-- `datetime.strptime(s, "%Y-%m-%dT%H:%M:%S")` with full consumption and
range checks. -/
def strptimeFull (cs : List Char) : Option PyDateTime :=
  match strptimeFullCore cs with
  | some (y, m, d, h, mi, s, rest) =>
    if rest = [] && validYMD y m d && validHMS h mi s then
      some ⟨y, m, d, h, mi, s⟩
    else none
  | none => none

/-- `URLScraper._parse_filter_date`: parse the configured cutoff string with
`"%Y-%m-%d"`; on `ValueError` fall back to `datetime(2025, 1, 14)`. -/
def parse_filter_date (s : String) : PyDateTime :=
  match strptimeYMD s.data with
  | some d => d
  | none => ⟨2025, 1, 14, 0, 0, 0⟩

/-- Python `s.split(c)[0]`: the prefix of `s` before the first occurrence of
`c` (all of `s` when `c` does not occur). -/
def takeUntil (c : Char) (cs : List Char) : List Char :=
  cs.takeWhile (fun x => x != c)

/-- `URLScraper._parse_sitemap_date`: empty or missing `lastmod` yields no
date; otherwise the string, with everything from the first `+` and the first
`Z` on removed, is tried against the format list
`["%Y-%m-%dT%H:%M:%S%z", "%Y-%m-%dT%H:%M:%S", "%Y-%m-%d"]`, where the code
deletes `%z` from the format before parsing, so the first two attempts are
the same full-timestamp parse. -/
def parse_sitemap_date (s : String) : Option PyDateTime :=
  if s.data = [] then none
  else
    match strptimeFull (takeUntil 'Z' (takeUntil '+' s.data)) with
    | some d => some d
    | none =>
      match strptimeFull (takeUntil 'Z' (takeUntil '+' s.data)) with
      | some d => some d
      | none => strptimeYMD (takeUntil 'Z' (takeUntil '+' s.data))

/-- Regex fragment `\d{1,2}/`: one or two digits followed by a slash,
returning the value and the characters after the slash.  Faithful to the
backtracking of `(\d{1,2})/`: a two-digit reading is taken exactly when the
third character is the slash; the one-digit alternative needs the second
character to be the slash, which a two-digit reading's failure (second
character a digit) excludes. -/
def matchNum12Slash : List Char → Option (Nat × List Char)
  | a :: b :: c :: rest =>
    if a.isDigit && b.isDigit && c = '/' then some (dig a * 10 + dig b, rest)
    else if a.isDigit && b = '/' then some (dig a, c :: rest)
    else none
  | [a, b] => if a.isDigit && b = '/' then some (dig a, []) else none
  | _ => none

/-- Match of `/(\d{4})/(\d{1,2})/(\d{1,2})/` anchored at the head. -/
def matchP1At : List Char → Option (Nat × Nat × Nat)
  | '/' :: y1 :: y2 :: y3 :: y4 :: '/' :: rest =>
    if y1.isDigit && y2.isDigit && y3.isDigit && y4.isDigit then
      match matchNum12Slash rest with
      | some (m, rest2) =>
        match matchNum12Slash rest2 with
        | some (d, _) =>
          some (((dig y1 * 10 + dig y2) * 10 + dig y3) * 10 + dig y4, m, d)
        | none => none
      | none => none
    else none
  | _ => none

/-- Match of `/(\d{4})-(\d{2})-(\d{2})` anchored at the head. -/
def matchP2At : List Char → Option (Nat × Nat × Nat)
  | '/' :: y1 :: y2 :: y3 :: y4 :: '-' :: m1 :: m2 :: '-' :: d1 :: d2 :: _ =>
    if y1.isDigit && y2.isDigit && y3.isDigit && y4.isDigit &&
       m1.isDigit && m2.isDigit && d1.isDigit && d2.isDigit then
      some (((dig y1 * 10 + dig y2) * 10 + dig y3) * 10 + dig y4,
            dig m1 * 10 + dig m2, dig d1 * 10 + dig d2)
    else none
  | _ => none

/-- Match of `/(\d{8})` anchored at the head, split as the code does:
characters 0-3 the year, 4-5 the month, 6-7 the day. -/
def matchP3At : List Char → Option (Nat × Nat × Nat)
  | '/' :: a :: b :: c :: d :: e :: f :: g :: h :: _ =>
    if a.isDigit && b.isDigit && c.isDigit && d.isDigit &&
       e.isDigit && f.isDigit && g.isDigit && h.isDigit then
      some (((dig a * 10 + dig b) * 10 + dig c) * 10 + dig d,
            dig e * 10 + dig f, dig g * 10 + dig h)
    else none
  | _ => none

/-- `re.search`: try the anchored matcher at each position, leftmost first. -/
def reSearch (f : List Char → Option (Nat × Nat × Nat)) :
    List Char → Option (Nat × Nat × Nat)
  | [] => f []
  | c :: rest =>
    match f (c :: rest) with
    | some r => some r
    | none => reSearch f rest

/-- `datetime(year, month, day)` applied to a regex match: the date when the
components are in range, `ValueError` (modelled `none`) otherwise. -/
def tryYMD : Option (Nat × Nat × Nat) → Option PyDateTime
  | some (y, m, d) => if validYMD y m d then some ⟨y, m, d, 0, 0, 0⟩ else none
  | none => none

/-- `URLScraper._extract_date_from_url`: try pattern 1, and on no match or a
`ValueError` from the matched components fall through to pattern 2, then to
pattern 3, then give up. -/
def extract_date_from_url (url : String) : Option PyDateTime :=
  match tryYMD (reSearch matchP1At url.data) with
  | some d => some d
  | none =>
    match tryYMD (reSearch matchP2At url.data) with
    | some d => some d
    | none => tryYMD (reSearch matchP3At url.data)

/-- `URLScraper._filter_url_by_date`: a non-empty `lastmod` that parses
decides inclusion by `date >= filter_date`; otherwise a date extracted from
the URL decides it the same way; otherwise include. -/
def filter_url_by_date (filterDate : PyDateTime) (url : String)
    (lastmod : Option String) : Bool :=
  match lastmod with
  | some lm =>
    if lm.data = [] then
      match extract_date_from_url url with
      | some d => filterDate.le d
      | none => true
    else
      match parse_sitemap_date lm with
      | some d => filterDate.le d
      | none =>
        match extract_date_from_url url with
        | some d => filterDate.le d
        | none => true
  | none =>
    match extract_date_from_url url with
    | some d => filterDate.le d
    | none => true

/-- The date the filter derives for a candidate, following the same
precedence the code uses: a usable (non-empty, parseable) last-modified hint
first, then a date embedded in the URL, else nothing. -/
def derivedDate (url : String) (lastmod : Option String) : Option PyDateTime :=
  match lastmod with
  | some lm =>
    if lm.data = [] then extract_date_from_url url
    else
      match parse_sitemap_date lm with
      | some d => some d
      | none => extract_date_from_url url
  | none => extract_date_from_url url

/-- The per-URL metadata `URLStorage.add_urls` writes into the JSON dict. -/
structure SeenRecord where
  first_seen : Nat
  source : String
deriving Repr, DecidableEq

/-- One source's persisted store: the `urls` JSON object, as an
insertion-ordered association list with unique keys (a Python dict), plus
`last_updated`. -/
structure StoreData where
  urls : List (String × SeenRecord)
  last_updated : Option Nat
deriving Repr, DecidableEq

/-- Python dict lookup `data["urls"].get(url)` on the association list. -/
def lookupUrl (m : List (String × SeenRecord)) (u : String) : Option SeenRecord :=
  match m with
  | [] => none
  | (k, v) :: rest => if u = k then some v else lookupUrl rest u

/-- `URLStorage.get_seen_urls`: the key set of the `urls` dict (as the list
of keys; membership is what the program uses it for). -/
def seenKeys (st : StoreData) : List String :=
  st.urls.map Prod.fst

/-- The `for url in urls` loop body of `URLStorage.add_urls`: insert each URL
not already a key, appending at the end of the dict, counting insertions. -/
def addLoop (t : Nat) (s : String) :
    List (String × SeenRecord) → Nat → List String → List (String × SeenRecord) × Nat
  | m, n, [] => (m, n)
  | m, n, u :: rest =>
    if (lookupUrl m u).isSome then addLoop t s m n rest
    else addLoop t s (m ++ [(u, ⟨t, s⟩)]) (n + 1) rest

/-- `URLStorage.add_urls(urls, source)` at current time `t`: runs the
insertion loop, then sets `last_updated` to `t` unconditionally, and returns
the updated store together with the insertion count. -/
def add_urls (st : StoreData) (urls : List String) (t : Nat) (s : String) :
    StoreData × Nat :=
  ({ urls := (addLoop t s st.urls 0 urls).1, last_updated := some t },
   (addLoop t s st.urls 0 urls).2)

/-- `identify_new_urls_per_source` (main.py): for each source in the scrape
result, keep the URLs not in that source's store; sources whose new-URL list
is empty are left out of the report dict. -/
def identify_new_urls_per_source (allUrls : List (String × List String))
    (stores : String → StoreData) : List (String × List String) :=
  allUrls.filterMap (fun p =>
    let newFor := p.2.filter (fun u => decide (¬ u ∈ seenKeys (stores p.1)))
    if newFor.isEmpty then none else some (p.1, newFor))

/-- The store-update loop of `main` (main.py lines 155-158): for each source
with a non-empty scraped list, `add_urls` the whole list into that source's
store; other sources' stores are untouched. -/
def updateStep (t : Nat) (sts : String → StoreData) (p : String × List String) :
    String → StoreData :=
  if p.2.isEmpty then sts
  else fun s2 => if s2 = p.1 then (add_urls (sts p.1) p.2 t p.1).1 else sts s2

/-- The full store-update fold over the scrape result. -/
def updateStores (allUrls : List (String × List String))
    (stores : String → StoreData) (t : Nat) : String → StoreData :=
  allUrls.foldl (updateStep t) stores

/-- Outcome of one HTTP attempt inside `URLScraper.fetch_url`, after the
session-internal transient-retry policy has resolved: a body, an HTTP error
status raised by `raise_for_status`, a timeout, or another request error. -/
inductive FetchOutcome where
  | success (body : String)
  | httpError (status : Nat)
  | timeout
  | reqError
deriving Repr, DecidableEq

/-- Observable actions of `fetch_url`: an HTTP attempt (with whether the
identity was rotated, i.e. `use_random_ua`) and a `time.sleep`. -/
inductive FetchEvent where
  | attempt (rotated : Bool)
  | sleep (seconds : Nat)
deriving Repr, DecidableEq

/-- `URLScraper.fetch_url`, driven by the sequence of attempt outcomes the
network would return: success returns the body; a 403 on an unrotated
attempt sleeps 2 seconds and recurses with `use_random_ua=True`; a 403 on a
rotated attempt, any other HTTP error, a timeout, or another request error
return `None`.  The event trace records the attempts made and the sleeps. -/
def fetch_url : List FetchOutcome → Bool → Option String × List FetchEvent
  | [], _ => (none, [])
  | r :: rest, rot =>
    match r with
    | FetchOutcome.success body => (some body, [FetchEvent.attempt rot])
    | FetchOutcome.httpError s =>
      if s = 403 then
        if rot then (none, [FetchEvent.attempt rot])
        else
          match fetch_url rest true with
          | (res, evs) => (res, FetchEvent.attempt rot :: FetchEvent.sleep 2 :: evs)
      else (none, [FetchEvent.attempt rot])
    | FetchOutcome.timeout => (none, [FetchEvent.attempt rot])
    | FetchOutcome.reqError => (none, [FetchEvent.attempt rot])

/-- Whether a fetch event is an HTTP attempt. -/
def isAttempt : FetchEvent → Bool
  | FetchEvent.attempt _ => true
  | FetchEvent.sleep _ => false

/-- Observable actions of `URLScraper.scrape_all_sources`: running one
source's scrape function, and a `time.sleep`. -/
inductive OrchEvent where
  | scrape (name : String)
  | sleep (seconds : Nat)
deriving Repr, DecidableEq

/-- `URLScraper.scrape_all_sources`, driven by each source's outcome (its URL
list, or the exception its scrape function raised).  On success the result is
recorded and `time.sleep(2)` runs; on an exception the handler records an
empty list and — the sleep being inside the `try` — no sleep happens. -/
def scrapeStep (acc : List (String × List String) × List OrchEvent)
    (p : String × Except Unit (List String)) :
    List (String × List String) × List OrchEvent :=
  match p.2 with
  | Except.ok urls =>
    (acc.1 ++ [(p.1, urls)], acc.2 ++ [OrchEvent.scrape p.1, OrchEvent.sleep 2])
  | Except.error _ =>
    (acc.1 ++ [(p.1, [])], acc.2 ++ [OrchEvent.scrape p.1])

/-- The full per-source loop of `scrape_all_sources`. -/
def scrape_all_sources (sources : List (String × Except Unit (List String))) :
    List (String × List String) × List OrchEvent :=
  sources.foldl scrapeStep ([], [])

/-- The events one source contributes to a `scrape_all_sources` run. -/
def sourceEvents (p : String × Except Unit (List String)) : List OrchEvent :=
  match p.2 with
  | Except.ok _ => [OrchEvent.scrape p.1, OrchEvent.sleep 2]
  | Except.error _ => [OrchEvent.scrape p.1]

/-- The result entry one source contributes to a `scrape_all_sources` run. -/
def sourceResult (p : String × Except Unit (List String)) : String × List String :=
  match p.2 with
  | Except.ok urls => (p.1, urls)
  | Except.error _ => (p.1, [])

/-! ### Association-list and insertion-loop lemmas -/

theorem lookupUrl_eq_none_iff (m : List (String × SeenRecord)) (u : String) :
    lookupUrl m u = none ↔ ¬ u ∈ m.map Prod.fst := by
  induction m with
  | nil => simp [lookupUrl]
  | cons kv rest ih =>
    obtain ⟨k, v⟩ := kv
    by_cases h : u = k <;> simp [lookupUrl, h, ih]

theorem lookupUrl_isSome_iff (m : List (String × SeenRecord)) (u : String) :
    (lookupUrl m u).isSome = true ↔ u ∈ m.map Prod.fst := by
  induction m with
  | nil => simp [lookupUrl]
  | cons kv rest ih =>
    obtain ⟨k, v⟩ := kv
    by_cases h : u = k <;> simp [lookupUrl, h, ih]

theorem lookupUrl_append_of_isSome (m m2 : List (String × SeenRecord)) (u : String)
    (h : (lookupUrl m u).isSome = true) :
    lookupUrl (m ++ m2) u = lookupUrl m u := by
  induction m with
  | nil => simp [lookupUrl] at h
  | cons kv rest ih =>
    obtain ⟨k, v⟩ := kv
    by_cases hk : u = k
    · simp [lookupUrl, hk]
    · simp [lookupUrl, hk] at h ⊢
      exact ih h

theorem lookupUrl_append_of_none (m m2 : List (String × SeenRecord)) (u : String)
    (h : lookupUrl m u = none) :
    lookupUrl (m ++ m2) u = lookupUrl m2 u := by
  induction m with
  | nil => simp [lookupUrl]
  | cons kv rest ih =>
    obtain ⟨k, v⟩ := kv
    by_cases hk : u = k
    · simp [lookupUrl, hk] at h
    · simp [lookupUrl, hk] at h ⊢
      exact ih h

theorem addLoop_lookup_some (t : Nat) (s : String) (urls : List String) :
    ∀ (m : List (String × SeenRecord)) (n : Nat) (u : String) (r : SeenRecord),
      lookupUrl m u = some r → lookupUrl (addLoop t s m n urls).1 u = some r := by
  induction urls with
  | nil => intro m n u r h; simpa [addLoop] using h
  | cons v rest ih =>
    intro m n u r h
    by_cases hv : (lookupUrl m v).isSome = true
    · simp only [addLoop, hv, if_pos]
      exact ih m n u r h
    · simp only [addLoop, hv, if_neg, Bool.not_eq_true]
      apply ih
      rw [lookupUrl_append_of_isSome]
      · exact h
      · simp [h]

theorem addLoop_mem_keys (t : Nat) (s : String) (urls : List String) :
    ∀ (m : List (String × SeenRecord)) (n : Nat) (u : String),
      (u ∈ m.map Prod.fst ∨ u ∈ urls) →
      u ∈ (addLoop t s m n urls).1.map Prod.fst := by
  induction urls with
  | nil =>
    intro m n u h
    simp only [addLoop]
    rcases h with h | h
    · exact h
    · simp at h
  | cons v rest ih =>
    intro m n u h
    by_cases hv : (lookupUrl m v).isSome = true
    · simp only [addLoop, hv, if_pos]
      apply ih
      rcases h with h | h
      · exact Or.inl h
      · rcases List.mem_cons.mp h with h | h
        · subst h
          exact Or.inl ((lookupUrl_isSome_iff m u).mp hv)
        · exact Or.inr h
    · simp only [addLoop, hv, if_neg, Bool.not_eq_true]
      apply ih
      rcases h with h | h
      · refine Or.inl ?_
        rw [List.map_append]
        exact List.mem_append_left _ h
      · rcases List.mem_cons.mp h with h | h
        · subst h
          refine Or.inl ?_
          rw [List.map_append]
          apply List.mem_append_right
          simp
        · exact Or.inr h

theorem addLoop_insert (t : Nat) (s : String) (urls : List String) :
    ∀ (m : List (String × SeenRecord)) (n : Nat) (u : String),
      u ∈ urls → lookupUrl m u = none →
      lookupUrl (addLoop t s m n urls).1 u = some ⟨t, s⟩ := by
  induction urls with
  | nil => intro m n u h; simp at h
  | cons v rest ih =>
    intro m n u hmem hnone
    by_cases hv : (lookupUrl m v).isSome = true
    · simp only [addLoop, hv, if_pos]
      rcases List.mem_cons.mp hmem with h | h
      · subst h
        rw [hnone] at hv
        simp at hv
      · exact ih m n u h hnone
    · simp only [addLoop, hv, if_neg, Bool.not_eq_true]
      by_cases huv : u = v
      · subst huv
        apply addLoop_lookup_some
        rw [lookupUrl_append_of_none _ _ _ hnone]
        simp [lookupUrl]
      · rcases List.mem_cons.mp hmem with h | h
        · exact absurd h huv
        · apply ih
          · exact h
          · rw [lookupUrl_append_of_none _ _ _ hnone]
            simp [lookupUrl, huv]

theorem addLoop_count (t : Nat) (s : String) (urls : List String) :
    ∀ (m : List (String × SeenRecord)) (n : Nat),
      (addLoop t s m n urls).2 =
        n + (urls.toFinset \ (m.map Prod.fst).toFinset).card := by
  induction urls with
  | nil => intro m n; simp [addLoop]
  | cons v rest ih =>
    intro m n
    by_cases hv : (lookupUrl m v).isSome = true
    · have hvK : v ∈ (m.map Prod.fst).toFinset :=
        List.mem_toFinset.mpr ((lookupUrl_isSome_iff m v).mp hv)
      simp only [addLoop, hv, if_pos, ih, List.toFinset_cons]
      rw [Finset.insert_sdiff_of_mem _ hvK]
    · have hvK : ¬ v ∈ (m.map Prod.fst).toFinset := by
        rw [List.mem_toFinset]
        intro hmem
        exact hv ((lookupUrl_isSome_iff m v).mpr hmem)
      simp only [addLoop, hv, if_neg, Bool.not_eq_true, ih, List.toFinset_cons]
      have hK : ((m ++ [(v, (⟨t, s⟩ : SeenRecord))]).map Prod.fst).toFinset =
          insert v ((m.map Prod.fst).toFinset) := by
        rw [List.map_append, List.toFinset_append]
        ext x
        simp [or_comm]
      rw [hK]
      have h1 : rest.toFinset \ insert v ((m.map Prod.fst).toFinset) =
          (rest.toFinset \ (m.map Prod.fst).toFinset).erase v := by
        ext x
        simp only [Finset.mem_sdiff, Finset.mem_erase, Finset.mem_insert]
        tauto
      have h2 : insert v rest.toFinset \ (m.map Prod.fst).toFinset =
          insert v (rest.toFinset \ (m.map Prod.fst).toFinset) := by
        ext x
        simp only [Finset.mem_sdiff, Finset.mem_insert]
        constructor
        · rintro ⟨hx | hx, hnx⟩
          · exact Or.inl hx
          · exact Or.inr ⟨hx, hnx⟩
        · rintro (hx | ⟨hx, hnx⟩)
          · subst hx
            exact ⟨Or.inl rfl, hvK⟩
          · exact ⟨Or.inr hx, hnx⟩
      rw [h1, h2]
      by_cases hx : v ∈ rest.toFinset \ (m.map Prod.fst).toFinset
      · rw [Finset.insert_eq_self.mpr hx]
        have := Finset.card_erase_add_one hx
        omega
      · rw [Finset.erase_eq_of_not_mem hx, Finset.card_insert_of_not_mem hx]
        omega

theorem addLoop_count_ge (t : Nat) (s : String) (urls : List String) :
    ∀ (m : List (String × SeenRecord)) (n : Nat), n ≤ (addLoop t s m n urls).2 := by
  induction urls with
  | nil => intro m n; simp [addLoop]
  | cons v rest ih =>
    intro m n
    by_cases hv : (lookupUrl m v).isSome = true
    · simp only [addLoop, hv, if_pos]
      exact ih m n
    · simp only [addLoop, hv, if_neg, Bool.not_eq_true]
      exact Nat.le_trans (Nat.le_succ n) (ih _ (n + 1))

theorem addLoop_count_eq_imp (t : Nat) (s : String) (urls : List String) :
    ∀ (m : List (String × SeenRecord)) (n : Nat),
      (addLoop t s m n urls).2 = n → (addLoop t s m n urls).1 = m := by
  induction urls with
  | nil => intro m n _; simp [addLoop]
  | cons v rest ih =>
    intro m n h
    by_cases hv : (lookupUrl m v).isSome = true
    · simp only [addLoop, hv, if_pos] at h ⊢
      exact ih m n h
    · simp only [addLoop, hv, if_neg, Bool.not_eq_true] at h
      have := addLoop_count_ge t s rest (m ++ [(v, ⟨t, s⟩)]) (n + 1)
      omega

/-- Claim C2: `add_urls` returns exactly the number of (distinct) URLs of the
argument list that are not already keys of the store, inserts a `SeenRecord`
with the current timestamp and the source name for each such URL, leaves
every already-present record (hence its `first_seen`) unchanged, and
re-adding the same list afterwards returns 0. -/
theorem c2_insertion_accounting (st : StoreData) (urls : List String)
    (t : Nat) (s : String) :
    (add_urls st urls t s).2 = (urls.toFinset \ (seenKeys st).toFinset).card
  ∧ (∀ u, u ∈ urls → lookupUrl st.urls u = none →
      lookupUrl (add_urls st urls t s).1.urls u = some ⟨t, s⟩)
  ∧ (∀ u r, lookupUrl st.urls u = some r →
      lookupUrl (add_urls st urls t s).1.urls u = some r)
  ∧ (∀ t2 s2, (add_urls (add_urls st urls t s).1 urls t2 s2).2 = 0) := by
  refine ⟨?_, ?_, ?_, ?_⟩
  · simp only [add_urls, seenKeys]
    rw [addLoop_count]
    omega
  · intro u hu hn
    simp only [add_urls]
    exact addLoop_insert t s urls st.urls 0 u hu hn
  · intro u r h
    simp only [add_urls]
    exact addLoop_lookup_some t s urls st.urls 0 u r h
  · intro t2 s2
    simp only [add_urls]
    rw [addLoop_count]
    have hsub : urls.toFinset ⊆
        (((addLoop t s st.urls 0 urls).1.map Prod.fst).toFinset) := by
      intro x hx
      rw [List.mem_toFinset] at hx ⊢
      exact addLoop_mem_keys t s urls st.urls 0 x (Or.inr hx)
    rw [Finset.sdiff_eq_empty_iff_subset.mpr hsub]
    simp

/-- Witness for C2 on a concrete store and URL list: the store already holds
`"a"`; adding `["a", "b", "b", "c"]` at time 5 returns 2, inserts `"b"` with
record (5, "src"), leaves `"a"`'s record untouched, and re-adding returns 0. -/
theorem c2_witness :
    ("b" : String) ∈ ["a", "b", "b", "c"]
  ∧ lookupUrl [("a", (⟨0, "old"⟩ : SeenRecord))] "b" = none
  ∧ lookupUrl (⟨[("a", ⟨0, "old"⟩)], some 0⟩ : StoreData).urls "a" = some ⟨0, "old"⟩
  ∧ (add_urls ⟨[("a", ⟨0, "old"⟩)], some 0⟩ ["a", "b", "b", "c"] 5 "src").2 = 2
  ∧ lookupUrl (add_urls ⟨[("a", ⟨0, "old"⟩)], some 0⟩
      ["a", "b", "b", "c"] 5 "src").1.urls "b" = some ⟨5, "src"⟩
  ∧ lookupUrl (add_urls ⟨[("a", ⟨0, "old"⟩)], some 0⟩
      ["a", "b", "b", "c"] 5 "src").1.urls "a" = some ⟨0, "old"⟩
  ∧ (add_urls (add_urls ⟨[("a", ⟨0, "old"⟩)], some 0⟩
      ["a", "b", "b", "c"] 5 "src").1 ["a", "b", "b", "c"] 9 "later").2 = 0 := by
  refine ⟨by decide, by decide, by decide, ?_, ?_, ?_, ?_⟩
  · rw [(c2_insertion_accounting ⟨[("a", ⟨0, "old"⟩)], some 0⟩
      ["a", "b", "b", "c"] 5 "src").1]
    decide
  · exact (c2_insertion_accounting ⟨[("a", ⟨0, "old"⟩)], some 0⟩
      ["a", "b", "b", "c"] 5 "src").2.1 "b" (by decide) (by decide)
  · exact (c2_insertion_accounting ⟨[("a", ⟨0, "old"⟩)], some 0⟩
      ["a", "b", "b", "c"] 5 "src").2.2.1 "a" ⟨0, "old"⟩ (by decide)
  · exact (c2_insertion_accounting ⟨[("a", ⟨0, "old"⟩)], some 0⟩
      ["a", "b", "b", "c"] 5 "src").2.2.2 9 "later"

/-- Counterexample to claim C6: a call with zero insertions still rewrites
`last_updated` (from `some 0` to `some 7`), so the stored state is not left
unchanged. -/
theorem c6_counterexample :
    (add_urls ⟨[("u", ⟨0, "a"⟩)], some 0⟩ ["u"] 7 "a").2 = 0
  ∧ (add_urls ⟨[("u", ⟨0, "a"⟩)], some 0⟩ ["u"] 7 "a").1.last_updated = some 7
  ∧ (⟨[("u", ⟨0, "a"⟩)], some 0⟩ : StoreData).last_updated = some 0
  ∧ (add_urls ⟨[("u", ⟨0, "a"⟩)], some 0⟩ ["u"] 7 "a").1
      ≠ (⟨[("u", ⟨0, "a"⟩)], some 0⟩ : StoreData) := by
  refine ⟨by decide, by decide, by decide, by decide⟩

/-- Claim C6 as amended: `add_urls` sets `last_updated` to the current
timestamp on every call, insertions or not; when no URL of the argument list
is new the `urls` mapping itself is left unchanged. -/
theorem c6_last_updated_amended (st : StoreData) (urls : List String)
    (t : Nat) (s : String) :
    (add_urls st urls t s).1.last_updated = some t
  ∧ ((add_urls st urls t s).2 = 0 → (add_urls st urls t s).1.urls = st.urls) := by
  constructor
  · simp [add_urls]
  · intro h
    simp only [add_urls] at h ⊢
    exact addLoop_count_eq_imp t s urls st.urls 0 h

/-- Witness for C6 as amended: a concrete zero-insertion call sets
`last_updated` to the new timestamp and leaves the `urls` mapping as it was. -/
theorem c6_witness :
    (add_urls ⟨[("u", ⟨0, "a"⟩)], some 0⟩ ["u"] 7 "a").2 = 0
  ∧ (add_urls ⟨[("u", ⟨0, "a"⟩)], some 0⟩ ["u"] 7 "a").1.last_updated = some 7
  ∧ (add_urls ⟨[("u", ⟨0, "a"⟩)], some 0⟩ ["u"] 7 "a").1.urls
      = [("u", ⟨0, "a"⟩)] := by
  refine ⟨by decide, ?_, ?_⟩
  · exact (c6_last_updated_amended ⟨[("u", ⟨0, "a"⟩)], some 0⟩ ["u"] 7 "a").1
  · exact (c6_last_updated_amended ⟨[("u", ⟨0, "a"⟩)], some 0⟩ ["u"] 7 "a").2
      (by decide)

/-! ### Pipeline lemmas: store growth and membership across the update loop -/

theorem updateStores_cons (p : String × List String)
    (rest : List (String × List String)) (stores : String → StoreData) (t : Nat) :
    updateStores (p :: rest) stores t = updateStores rest (updateStep t stores p) t :=
  rfl

theorem seenKeys_add_urls_of_mem_keys (st : StoreData) (urls : List String)
    (t : Nat) (s : String) (u : String) (h : u ∈ seenKeys st) :
    u ∈ seenKeys (add_urls st urls t s).1 := by
  simp only [add_urls, seenKeys]
  exact addLoop_mem_keys t s urls st.urls 0 u (Or.inl h)

theorem seenKeys_add_urls_of_mem_urls (st : StoreData) (urls : List String)
    (t : Nat) (s : String) (u : String) (h : u ∈ urls) :
    u ∈ seenKeys (add_urls st urls t s).1 := by
  simp only [add_urls, seenKeys]
  exact addLoop_mem_keys t s urls st.urls 0 u (Or.inr h)

theorem updateStep_grow (t : Nat) (stores : String → StoreData)
    (p : String × List String) (s u : String) (h : u ∈ seenKeys (stores s)) :
    u ∈ seenKeys (updateStep t stores p s) := by
  unfold updateStep
  by_cases he : p.2.isEmpty = true
  · simp only [he, if_pos]
    exact h
  · simp only [he, if_neg, Bool.not_eq_true]
    by_cases hs : s = p.1
    · simp only [hs, if_pos]
      subst hs
      exact seenKeys_add_urls_of_mem_keys _ _ _ _ _ h
    · simp only [hs, if_neg]
      exact h

theorem updateStores_grow (l : List (String × List String)) :
    ∀ (stores : String → StoreData) (t : Nat) (s u : String),
      u ∈ seenKeys (stores s) → u ∈ seenKeys (updateStores l stores t s) := by
  induction l with
  | nil => intro stores t s u h; exact h
  | cons p rest ih =>
    intro stores t s u h
    rw [updateStores_cons]
    exact ih (updateStep t stores p) t s u (updateStep_grow t stores p s u h)

theorem updateStores_mem (l : List (String × List String)) :
    ∀ (stores : String → StoreData) (t : Nat) (s : String) (urls : List String)
      (u : String), (s, urls) ∈ l → u ∈ urls →
      u ∈ seenKeys (updateStores l stores t s) := by
  induction l with
  | nil => intro stores t s urls u h; simp at h
  | cons p rest ih =>
    intro stores t s urls u hmem hu
    rw [updateStores_cons]
    rcases List.mem_cons.mp hmem with h | h
    · apply updateStores_grow
      subst h
      have hne : ¬ urls.isEmpty = true := by
        cases urls with
        | nil => simp at hu
        | cons a l => simp
      unfold updateStep
      simp only [hne, if_neg, Bool.not_eq_true, if_pos]
      exact seenKeys_add_urls_of_mem_urls _ _ _ _ _ hu
    · exact ih (updateStep t stores p) t s urls u h hu

/-- Claim C1: a URL reported as new for a source was not among that source's
seen URLs before the run and is among them after the store update; and a URL
recorded under one source does not suppress the same URL from being reported
as new under a different source. -/
theorem c1_dedup_per_source (allUrls : List (String × List String))
    (stores : String → StoreData) (t : Nat) (u : String) :
    (∀ s newList, (s, newList) ∈ identify_new_urls_per_source allUrls stores →
        u ∈ newList →
        ¬ u ∈ seenKeys (stores s) ∧ u ∈ seenKeys (updateStores allUrls stores t s))
  ∧ (∀ s1 s2 urls2, s1 ≠ s2 → u ∈ seenKeys (stores s1) → (s2, urls2) ∈ allUrls →
        u ∈ urls2 → ¬ u ∈ seenKeys (stores s2) →
        ∃ l, (s2, l) ∈ identify_new_urls_per_source allUrls stores ∧ u ∈ l) := by
  constructor
  · intro s newList hmem hu
    unfold identify_new_urls_per_source at hmem
    rw [List.mem_filterMap] at hmem
    obtain ⟨p, hp, hf⟩ := hmem
    dsimp only at hf
    split at hf
    · exact absurd hf (by simp)
    · rw [Option.some.injEq, Prod.mk.injEq] at hf
      obtain ⟨hs, hlist⟩ := hf
      subst hs
      subst hlist
      rw [List.mem_filter] at hu
      obtain ⟨hu2, hdec⟩ := hu
      constructor
      · exact of_decide_eq_true hdec
      · have hp2 : (p.1, p.2) ∈ allUrls := by
          cases p
          exact hp
        exact updateStores_mem allUrls stores t p.1 p.2 u hp2 hu2
  · intro s1 s2 urls2 hne hs1 hmem hu hnot
    have hufilter : u ∈ urls2.filter (fun v => decide (¬ v ∈ seenKeys (stores s2))) := by
      rw [List.mem_filter]
      exact ⟨hu, decide_eq_true hnot⟩
    refine ⟨urls2.filter (fun v => decide (¬ v ∈ seenKeys (stores s2))), ?_, hufilter⟩
    unfold identify_new_urls_per_source
    rw [List.mem_filterMap]
    refine ⟨(s2, urls2), hmem, ?_⟩
    dsimp only
    have hne2 : ¬ (urls2.filter
        (fun v => decide (¬ v ∈ seenKeys (stores s2)))).isEmpty = true := by
      rw [List.isEmpty_iff]
      intro hnil
      rw [hnil] at hufilter
      simp at hufilter
    simp only [hne2, if_neg, Bool.not_eq_true]

/-- Witness for C1: source "A" has already seen `u1`; the scrape result lists
`u1` again for "A" and freshly for "B".  The report omits "A" (nothing new),
reports `u1` under "B", and after the update `u1` is seen for "B". -/
theorem c1_witness :
    ("B", ["u1", "u2"]) ∈ identify_new_urls_per_source
      [("A", ["u1"]), ("B", ["u1", "u2"])]
      (fun s => if s = "A" then ⟨[("u1", ⟨0, "A"⟩)], some 0⟩ else ⟨[], none⟩)
  ∧ (¬ ("u1" : String) ∈ seenKeys ((fun s => if s = "A" then
        (⟨[("u1", ⟨0, "A"⟩)], some 0⟩ : StoreData) else ⟨[], none⟩) "B")
     ∧ ("u1" : String) ∈ seenKeys (updateStores
        [("A", ["u1"]), ("B", ["u1", "u2"])]
        (fun s => if s = "A" then ⟨[("u1", ⟨0, "A"⟩)], some 0⟩ else ⟨[], none⟩)
        3 "B"))
  ∧ (∃ l, ("B", l) ∈ identify_new_urls_per_source
        [("A", ["u1"]), ("B", ["u1", "u2"])]
        (fun s => if s = "A" then ⟨[("u1", ⟨0, "A"⟩)], some 0⟩ else ⟨[], none⟩)
      ∧ ("u1" : String) ∈ l) := by
  refine ⟨by decide, ?_, ?_⟩
  · exact (c1_dedup_per_source [("A", ["u1"]), ("B", ["u1", "u2"])]
      (fun s => if s = "A" then ⟨[("u1", ⟨0, "A"⟩)], some 0⟩ else ⟨[], none⟩)
      3 "u1").1 "B" ["u1", "u2"] (by decide) (by decide)
  · exact (c1_dedup_per_source [("A", ["u1"]), ("B", ["u1", "u2"])]
      (fun s => if s = "A" then ⟨[("u1", ⟨0, "A"⟩)], some 0⟩ else ⟨[], none⟩)
      3 "u1").2 "A" "B" ["u1", "u2"] (by decide) (by decide) (by decide)
      (by decide) (by decide)

/-- Claim C5: replaying the same scrape result against the stores left by the
first run yields an empty new-URLs report for every source. -/
theorem c5_idempotence (allUrls : List (String × List String))
    (stores : String → StoreData) (t : Nat) :
    identify_new_urls_per_source allUrls (updateStores allUrls stores t) = [] := by
  unfold identify_new_urls_per_source
  rw [List.filterMap_eq_nil_iff]
  intro p hp
  dsimp only
  have hall : p.2.filter
      (fun v => decide (¬ v ∈ seenKeys (updateStores allUrls stores t p.1))) = [] := by
    rw [List.filter_eq_nil_iff]
    intro a ha
    have hmem : a ∈ seenKeys (updateStores allUrls stores t p.1) := by
      apply updateStores_mem allUrls stores t p.1 p.2 a _ ha
      cases p
      exact hp
    simp [hmem]
  rw [hall]
  simp

/-! ### Date-filter lemmas -/

theorem filter_eq_derived (fd : PyDateTime) (url : String) (lastmod : Option String) :
    filter_url_by_date fd url lastmod =
      (match derivedDate url lastmod with
       | some d => PyDateTime.le fd d
       | none => true) := by
  unfold filter_url_by_date derivedDate
  cases lastmod with
  | none => rfl
  | some lm =>
    by_cases h : lm.data = []
    · simp only [h, if_pos]
    · simp only [h, if_neg]
      cases hp : parse_sitemap_date lm <;> rfl

/-- Claim C3: against a fixed cutoff, a candidate whose derived date is
strictly before the cutoff is excluded, one whose derived date is at or
after the cutoff is included, and a candidate with no derivable date is
included. -/
theorem c3_cutoff_monotonicity (fd : PyDateTime) (url : String)
    (lastmod : Option String) :
    (∀ d, derivedDate url lastmod = some d → d.key < fd.key →
        filter_url_by_date fd url lastmod = false)
  ∧ (∀ d, derivedDate url lastmod = some d → fd.key ≤ d.key →
        filter_url_by_date fd url lastmod = true)
  ∧ (derivedDate url lastmod = none → filter_url_by_date fd url lastmod = true) := by
  refine ⟨?_, ?_, ?_⟩
  · intro d hd hlt
    rw [filter_eq_derived, hd]
    simp only [PyDateTime.le, decide_eq_false_iff_not]
    omega
  · intro d hd hle
    rw [filter_eq_derived, hd]
    simp only [PyDateTime.le, decide_eq_true_eq]
    omega
  · intro hd
    rw [filter_eq_derived, hd]

/-- Witness for C3, the mixed-dates scenario: cutoff 2025-01-14; a hint of
2025-01-10 is excluded, 2025-01-15 is included, and a candidate with no hint
and no URL date is included. -/
theorem c3_witness :
    derivedDate "https://e/a" (some "2025-01-10")
      = some ⟨2025, 1, 10, 0, 0, 0⟩
  ∧ (⟨2025, 1, 10, 0, 0, 0⟩ : PyDateTime).key < (parse_filter_date "2025-01-14").key
  ∧ filter_url_by_date (parse_filter_date "2025-01-14") "https://e/a"
      (some "2025-01-10") = false
  ∧ derivedDate "https://e/b" (some "2025-01-15")
      = some ⟨2025, 1, 15, 0, 0, 0⟩
  ∧ (parse_filter_date "2025-01-14").key ≤ (⟨2025, 1, 15, 0, 0, 0⟩ : PyDateTime).key
  ∧ filter_url_by_date (parse_filter_date "2025-01-14") "https://e/b"
      (some "2025-01-15") = true
  ∧ derivedDate "https://e/c" none = none
  ∧ filter_url_by_date (parse_filter_date "2025-01-14") "https://e/c" none = true := by
  refine ⟨by decide, by decide, ?_, by decide, by decide, ?_, by decide, ?_⟩
  · exact (c3_cutoff_monotonicity (parse_filter_date "2025-01-14") "https://e/a"
      (some "2025-01-10")).1 ⟨2025, 1, 10, 0, 0, 0⟩ (by decide) (by decide)
  · exact (c3_cutoff_monotonicity (parse_filter_date "2025-01-14") "https://e/b"
      (some "2025-01-15")).2.1 ⟨2025, 1, 15, 0, 0, 0⟩ (by decide) (by decide)
  · exact (c3_cutoff_monotonicity (parse_filter_date "2025-01-14") "https://e/c"
      none).2.2 (by decide)

/-- Claim C4: a 403 on an unrotated attempt causes exactly one further
attempt, with rotated identity, after a 2-second sleep, and the fetch
returns whatever that attempt yields (its body on success); a 403 on a
rotated attempt is terminal with result `None`; a rotated call makes exactly
one attempt whatever the outcome. -/
theorem c4_denial_retry_policy (rest : List FetchOutcome) :
    fetch_url (FetchOutcome.httpError 403 :: rest) false
      = ((fetch_url rest true).1,
         FetchEvent.attempt false :: FetchEvent.sleep 2 :: (fetch_url rest true).2)
  ∧ fetch_url (FetchOutcome.httpError 403 :: rest) true
      = (none, [FetchEvent.attempt true])
  ∧ (∀ b, fetch_url (FetchOutcome.success b :: rest) true
      = (some b, [FetchEvent.attempt true]))
  ∧ (∀ r, ((fetch_url (r :: rest) true).2.countP isAttempt) = 1) := by
  refine ⟨?_, ?_, ?_, ?_⟩
  · cases h : fetch_url rest true with
    | mk res evs => simp [fetch_url, h]
  · simp [fetch_url]
  · intro b
    simp [fetch_url]
  · intro r
    cases r with
    | success b => simp [fetch_url]; decide
    | httpError s =>
      by_cases hs : s = 403
      · subst hs
        simp [fetch_url]
        decide
      · simp [fetch_url, hs]
        decide
    | timeout => simp [fetch_url]; decide
    | reqError => simp [fetch_url]; decide

/-- Counterexample to claim C9: a source whose scrape function raises gets no
courtesy delay after it — the sleep sits inside the `try` and is skipped on
the exception path. -/
theorem c9_counterexample :
    ¬ OrchEvent.sleep 2 ∈ (scrape_all_sources [("dexpose.io", Except.error ())]).2 := by
  decide

theorem scrapeStep_foldl (sources : List (String × Except Unit (List String))) :
    ∀ acc : List (String × List String) × List OrchEvent,
      sources.foldl scrapeStep acc =
        (acc.1 ++ sources.map sourceResult, acc.2 ++ sources.flatMap sourceEvents) := by
  induction sources with
  | nil => intro acc; simp
  | cons p rest ih =>
    intro acc
    rw [List.foldl_cons, ih]
    cases hp : p.2 with
    | ok urls =>
      simp [scrapeStep, hp, sourceResult, sourceEvents, List.append_assoc]
    | error e =>
      simp [scrapeStep, hp, sourceResult, sourceEvents, List.append_assoc]

/-- Claim C9 as amended: the orchestrator visits the sources in order; a
source that completes contributes its URL list and is followed by the
2-second courtesy delay; a source whose scrape function raises contributes
an empty list and the delay is skipped for it. -/
theorem c9_courtesy_delay_amended (sources : List (String × Except Unit (List String))) :
    (scrape_all_sources sources).1 = sources.map sourceResult
  ∧ (scrape_all_sources sources).2 = sources.flatMap sourceEvents := by
  unfold scrape_all_sources
  rw [scrapeStep_foldl]
  constructor <;> simp

/-- Claim C10: a cutoff-date string that does not parse as `%Y-%m-%d` is not
an error — the scraper silently falls back to the default cutoff
`datetime(2025, 1, 14)`. -/
theorem c10_invalid_cutoff_default (s : String)
    (h : strptimeYMD s.data = none) :
    parse_filter_date s = ⟨2025, 1, 14, 0, 0, 0⟩ := by
  unfold parse_filter_date
  rw [h]

/-- Witness for C10: a concrete malformed cutoff string yields the default. -/
theorem c10_witness :
    strptimeYMD ("14/01/2025" : String).data = none
  ∧ parse_filter_date "14/01/2025" = ⟨2025, 1, 14, 0, 0, 0⟩ := by
  refine ⟨by decide, c10_invalid_cutoff_default "14/01/2025" (by decide)⟩

/-! ### Zone-suffix stripping lemmas -/

theorem takeWhile_append_of_all {p : Char → Bool} (l1 l2 : List Char)
    (h : ∀ x ∈ l1, p x = true) :
    (l1 ++ l2).takeWhile p = l1 ++ l2.takeWhile p := by
  induction l1 with
  | nil => simp
  | cons a l ih =>
    have ha : p a = true := h a (by simp)
    simp only [List.cons_append, List.takeWhile_cons, ha, if_true]
    rw [ih (fun x hx => h x (by simp [hx]))]

theorem takeWhile_eq_self_of_all {p : Char → Bool} (l : List Char)
    (h : ∀ x ∈ l, p x = true) : l.takeWhile p = l := by
  have := takeWhile_append_of_all l [] h
  simpa using this

/-- Counterexample to claim C7: a full timestamp whose zone offset is
negative (`-05:00`) is not stripped by the `+`/`Z` splits, fails every
format, and derives no date at all. -/
theorem c7_counterexample :
    parse_sitemap_date "2025-01-14T10:00:00-05:00" = none := by
  decide

/-- Claim C7 as amended: derivation parses the hint with everything from the
first `+` or `Z` removed — so a zone suffix introduced by `+` or `Z` is
stripped and such a hint parses as a zone-naive timestamp, while a negative
(`-HH:MM`) offset is not stripped and the hint fails to parse. -/
theorem c7_zone_strip_amended (core suffix : String)
    (h1 : core.data ≠ [])
    (h2 : ¬ '+' ∈ core.data) (h3 : ¬ 'Z' ∈ core.data)
    (h4 : suffix.data.head? = some '+' ∨ suffix.data.head? = some 'Z') :
    parse_sitemap_date (core ++ suffix) = parse_sitemap_date core := by
  have hdata : (core ++ suffix).data = core.data ++ suffix.data := by
    cases core
    cases suffix
    rfl
  have hallp : ∀ x ∈ core.data, (x != '+') = true := by
    intro x hx
    rw [bne_iff_ne]
    intro hc
    exact h2 (hc ▸ hx)
  have hallz : ∀ x ∈ core.data, (x != 'Z') = true := by
    intro x hx
    rw [bne_iff_ne]
    intro hc
    exact h3 (hc ▸ hx)
  have hcore : takeUntil 'Z' (takeUntil '+' core.data) = takeUntil 'Z' core.data := by
    unfold takeUntil
    rw [takeWhile_eq_self_of_all core.data hallp]
  have hkey : takeUntil 'Z' (takeUntil '+' (core.data ++ suffix.data)) =
      takeUntil 'Z' core.data := by
    rcases h4 with h | h
    · obtain ⟨t, ht⟩ : ∃ t, suffix.data = '+' :: t := by
        cases hs : suffix.data with
        | nil => rw [hs] at h; simp at h
        | cons c t =>
          rw [hs] at h
          simp at h
          exact ⟨t, by rw [h]⟩
      rw [ht]
      unfold takeUntil
      rw [takeWhile_append_of_all core.data _ hallp]
      simp
    · obtain ⟨t, ht⟩ : ∃ t, suffix.data = 'Z' :: t := by
        cases hs : suffix.data with
        | nil => rw [hs] at h; simp at h
        | cons c t =>
          rw [hs] at h
          simp at h
          exact ⟨t, by rw [h]⟩
      rw [ht]
      unfold takeUntil
      rw [takeWhile_append_of_all core.data _ hallp]
      rw [takeWhile_append_of_all core.data _ hallz]
      simp [takeWhile_eq_self_of_all core.data hallz]
  have hne2 : core.data ++ suffix.data ≠ [] := by
    intro hc
    exact h1 (List.append_eq_nil.mp hc).1
  unfold parse_sitemap_date
  rw [hdata, hkey, hcore]
  simp only [hne2, if_neg, h1]

/-- Witness for C7 as amended: a concrete `+05:00` suffix is stripped, and
the hint parses to the same zone-naive timestamp as the bare core. -/
theorem c7_witness :
    ("2025-01-14T10:00:00" : String).data ≠ []
  ∧ ¬ '+' ∈ ("2025-01-14T10:00:00" : String).data
  ∧ ¬ 'Z' ∈ ("2025-01-14T10:00:00" : String).data
  ∧ (("+05:00" : String).data.head? = some '+'
      ∨ ("+05:00" : String).data.head? = some 'Z')
  ∧ parse_sitemap_date ("2025-01-14T10:00:00" ++ "+05:00")
      = parse_sitemap_date "2025-01-14T10:00:00"
  ∧ parse_sitemap_date "2025-01-14T10:00:00"
      = some ⟨2025, 1, 14, 10, 0, 0⟩ := by
  refine ⟨by decide, by decide, by decide, by decide, ?_, by decide⟩
  exact c7_zone_strip_amended "2025-01-14T10:00:00" "+05:00"
    (by decide) (by decide) (by decide) (by decide)

/-- Claim C8: URL date extraction tries the `/YYYY/MM/DD/` pattern first,
then `/YYYY-MM-DD`, then `/YYYYMMDD`; a match whose components fail the
calendar check is treated as no match at all, falling through to the next
pattern; when every pattern fails or is invalid the result is the third
pattern's (possibly empty) outcome. -/
theorem c8_url_date_precedence (url : String) :
    (∀ y m d, reSearch matchP1At url.data = some (y, m, d) → validYMD y m d = true →
        extract_date_from_url url = some ⟨y, m, d, 0, 0, 0⟩)
  ∧ (∀ y m d, reSearch matchP1At url.data = some (y, m, d) → validYMD y m d = false →
        extract_date_from_url url =
          (match tryYMD (reSearch matchP2At url.data) with
           | some d2 => some d2
           | none => tryYMD (reSearch matchP3At url.data)))
  ∧ (reSearch matchP1At url.data = none →
        extract_date_from_url url =
          (match tryYMD (reSearch matchP2At url.data) with
           | some d2 => some d2
           | none => tryYMD (reSearch matchP3At url.data)))
  ∧ (∀ y m d, tryYMD (reSearch matchP1At url.data) = none →
        reSearch matchP2At url.data = some (y, m, d) → validYMD y m d = false →
        extract_date_from_url url = tryYMD (reSearch matchP3At url.data)) := by
  refine ⟨?_, ?_, ?_, ?_⟩
  · intro y m d h hv
    unfold extract_date_from_url
    rw [h]
    simp [tryYMD, hv]
  · intro y m d h hv
    unfold extract_date_from_url
    rw [h]
    simp [tryYMD, hv]
  · intro h
    unfold extract_date_from_url
    rw [h]
    simp [tryYMD]
  · intro y m d h1 h2 hv
    unfold extract_date_from_url
    rw [h1, h2]
    simp [tryYMD, hv]

/-- Witness for C8: the URL carries an invalid `/2025/13/01/` segment (month
13), which is discarded, and extraction falls through to the valid
`/2025-01-20` pattern. -/
theorem c8_witness :
    reSearch matchP1At ("https://x.com/2025/13/01/a/2025-01-20-x" : String).data
      = some (2025, 13, 1)
  ∧ validYMD 2025 13 1 = false
  ∧ extract_date_from_url "https://x.com/2025/13/01/a/2025-01-20-x"
      = some ⟨2025, 1, 20, 0, 0, 0⟩ := by
  refine ⟨by decide, by decide, ?_⟩
  rw [(c8_url_date_precedence "https://x.com/2025/13/01/a/2025-01-20-x").2.1
    2025 13 1 (by decide) (by decide)]
  decide
